import Mathlib

/-!
# Verification of the `login_id_matcher` repository

Two components are embedded here, both shallowly:

* the capacity-reservation retry/backoff controller, translated from the
  retry loop of `src/test_capacity_reservation.py`
  (`simulate_capacity_reservation`); and
* the login-permutation matcher, translated from `src/login_matcher.py`
  (`generate_login_permutations`, `find_matching_logins`).

Timing model for the retry loop: the source polls a wall clock and sleeps
between attempts.  In the embedding, logical time advances exactly by the
interval slept between attempts and an attempt itself takes zero time, so
`elapsed` is the sum of the intervals slept so far.  Loop recursion is
driven by a fuel parameter; `none` means the fuel ran out (which is shown
never to happen for valid policies), so termination is a theorem, not an
assumption.  Python `str` values manipulated character-wise are embedded
as `List Char`; the simulation's durations are embedded as `ℤ` (the source
converts them with `int(...)`) and the evolving interval/elapsed values as
`ℚ` (the source mixes them with the float `backoff`).
-/

/-- Retry policy, from the parameter block of `simulate_capacity_reservation`:
`max_duration = int(params['MaxRetryDurationMinutes']) * 60` (seconds),
`initial_interval`, `max_interval` are `int(...)`, `backoff = float(...)`. -/
structure RetryPolicy where
  maxDuration : ℤ
  initialInterval : ℤ
  maxInterval : ℤ
  backoffMultiplier : ℚ
deriving DecidableEq

/-- Outcome of one executor attempt.  In the source, one loop iteration either
returns a stubbed successful reservation or raises `ClientError` (which the
loop treats as retryable).  The `fatalFailure` constructor is *modelled from
the spec* (§4.1 step 2c: non-retryable provider errors are surfaced
immediately); the simulation in `src/` scripts only successes and retryable
`ClientError`s, so no code for this branch exists under `src/`. -/
inductive AttemptOutcome where
  | success (capacityReservationId : String)
  | retryableFailure (reason : String)
  | fatalFailure (reason : String)
deriving DecidableEq

/-- The result dictionary built on each exit path of
`simulate_capacity_reservation`.  The success path has no `error` key and the
failure paths have no `capacityReservationId` key; `Option` models the absent
keys. -/
structure RetryResult where
  success : Bool
  capacityReservationId : Option String
  error : Option String
  attempts : Nat
  totalDuration : ℤ
  finalInterval : ℚ
deriving DecidableEq

/-- `f'InsufficientCapacity after {attempt} attempts over {int(elapsed)} seconds'`. -/
def insufficientMsg (attempt : Nat) (elapsedSec : ℤ) : String :=
  "InsufficientCapacity after " ++ toString attempt ++ " attempts over "
    ++ toString elapsedSec ++ " seconds"

/-- `f'Exceeded maximum retry duration ({max_duration} seconds) after {attempt} attempts'`. -/
def exceededMsg (maxDur : ℤ) (attempt : Nat) : String :=
  "Exceeded maximum retry duration (" ++ toString maxDur ++ " seconds) after "
    ++ toString attempt ++ " attempts"

/-- The retry loop of `simulate_capacity_reservation`, with the executor
abstracted to a scripted outcome per 1-based attempt number (the stub armed
per iteration in the source).  State: `elapsed` (logical time since
`start_time`), `currentInterval`, `attempt`.  The loop guard, the
`remaining < current_interval` short-circuit, the
`min(current_interval * backoff, max_interval)` update and every returned
record follow the source line by line; `int(elapsed)` is `⌊elapsed⌋`
(elapsed is nonnegative).  `fuel` only bounds the recursion depth; `none`
models a run that does not finish within `fuel` iterations.  The
`fatalFailure` branch is modelled from the spec (see `AttemptOutcome`). -/
def acquireLoop (p : RetryPolicy) (exec : Nat → AttemptOutcome) :
    Nat → ℚ → ℚ → Nat → Option RetryResult
  | 0, _, _, _ => none
  | fuel + 1, elapsed, currentInterval, attempt =>
    if elapsed < (p.maxDuration : ℚ) then
      match exec attempt with
      | .success cid =>
          some { success := true, capacityReservationId := some cid, error := none,
                 attempts := attempt, totalDuration := ⌊elapsed⌋,
                 finalInterval := currentInterval }
      | .fatalFailure reason =>
          some { success := false, capacityReservationId := none, error := some reason,
                 attempts := attempt, totalDuration := ⌊elapsed⌋,
                 finalInterval := currentInterval }
      | .retryableFailure _ =>
          if (p.maxDuration : ℚ) - elapsed < currentInterval then
            some { success := false, capacityReservationId := none,
                   error := some (insufficientMsg attempt ⌊elapsed⌋),
                   attempts := attempt, totalDuration := ⌊elapsed⌋,
                   finalInterval := currentInterval }
          else
            acquireLoop p exec fuel (elapsed + currentInterval)
              (min (currentInterval * p.backoffMultiplier) (p.maxInterval : ℚ))
              (attempt + 1)
    else
      some { success := false, capacityReservationId := none,
             error := some (exceededMsg p.maxDuration attempt),
             attempts := attempt, totalDuration := p.maxDuration,
             finalInterval := currentInterval }

/-- Fuel that always suffices for a valid policy: each sleep advances logical
time by at least `initialInterval ≥ 1` second, so at most `maxDuration`
iterations can sleep before the guard fails. -/
def retryFuel (p : RetryPolicy) : Nat :=
  p.maxDuration.toNat + 1

/-- Entry point of the retry call: `start_time = now()`,
`current_interval = initial_interval`, `attempt = 1`. -/
def acquire (p : RetryPolicy) (exec : Nat → AttemptOutcome) : Option RetryResult :=
  acquireLoop p exec (retryFuel p) 0 (p.initialInterval : ℚ) 1

/-- The same loop instrumented with a counter of executor invocations
(`calls`); the source issues exactly one `create_capacity_reservation` call
per loop iteration.  First component agrees with `acquireLoop`
(`acquireLoopCalls_fst`). -/
def acquireLoopCalls (p : RetryPolicy) (exec : Nat → AttemptOutcome) :
    Nat → ℚ → ℚ → Nat → Nat → Option RetryResult × Nat
  | 0, _, _, _, calls => (none, calls)
  | fuel + 1, elapsed, currentInterval, attempt, calls =>
    if elapsed < (p.maxDuration : ℚ) then
      match exec attempt with
      | .success cid =>
          (some { success := true, capacityReservationId := some cid, error := none,
                  attempts := attempt, totalDuration := ⌊elapsed⌋,
                  finalInterval := currentInterval }, calls + 1)
      | .fatalFailure reason =>
          (some { success := false, capacityReservationId := none, error := some reason,
                  attempts := attempt, totalDuration := ⌊elapsed⌋,
                  finalInterval := currentInterval }, calls + 1)
      | .retryableFailure _ =>
          if (p.maxDuration : ℚ) - elapsed < currentInterval then
            (some { success := false, capacityReservationId := none,
                    error := some (insufficientMsg attempt ⌊elapsed⌋),
                    attempts := attempt, totalDuration := ⌊elapsed⌋,
                    finalInterval := currentInterval }, calls + 1)
          else
            acquireLoopCalls p exec fuel (elapsed + currentInterval)
              (min (currentInterval * p.backoffMultiplier) (p.maxInterval : ℚ))
              (attempt + 1) (calls + 1)
    else
      (some { success := false, capacityReservationId := none,
              error := some (exceededMsg p.maxDuration attempt),
              attempts := attempt, totalDuration := p.maxDuration,
              finalInterval := currentInterval }, calls)

/-- `acquire` together with the number of executor calls actually issued. -/
def acquireCalls (p : RetryPolicy) (exec : Nat → AttemptOutcome) :
    Option RetryResult × Nat :=
  acquireLoopCalls p exec (retryFuel p) 0 (p.initialInterval : ℚ) 1 0

/-- The interval the controller uses on attempt `n+1` (0-based index `n`):
`initial_interval` at first, then
`min(current_interval * backoff, max_interval)` after each sleep. -/
def intervalAt (p : RetryPolicy) : Nat → ℚ
  | 0 => (p.initialInterval : ℚ)
  | n + 1 => min (intervalAt p n * p.backoffMultiplier) (p.maxInterval : ℚ)

/-- Logical elapsed time when attempt `n+1` (0-based index `n`) is issued:
the sum of the intervals slept after attempts `1..n`. -/
def elapsedAt (p : RetryPolicy) : Nat → ℚ
  | 0 => 0
  | n + 1 => elapsedAt p n + intervalAt p n

/-- Modelled from the spec (§3 invariant, §6, §7): a valid `RetryPolicy` has
positive durations, `initialInterval ≤ maxInterval` and multiplier `> 1`.
No validation code exists under `src/`; the simulation converts the
parameters without checking them. -/
def validPolicy (p : RetryPolicy) : Prop :=
  0 < p.maxDuration ∧ 0 < p.initialInterval ∧
    p.initialInterval ≤ p.maxInterval ∧ 1 < p.backoffMultiplier

instance (p : RetryPolicy) : Decidable (validPolicy p) := by
  unfold validPolicy; infer_instance

/-- Modelled from the spec (§7 taxonomy, configuration error): the result a
validating front end returns without starting the loop. -/
def configErrorResult : RetryResult :=
  { success := false, capacityReservationId := none,
    error := some "configuration error: invalid RetryPolicy",
    attempts := 0, totalDuration := 0, finalInterval := 0 }

/-- Modelled from the spec (§6): validate the policy before entering the
loop; on an invalid policy fail fast with a configuration error. -/
def acquireValidated (p : RetryPolicy) (exec : Nat → AttemptOutcome) :
    Option RetryResult :=
  if validPolicy p then acquire p exec else some configErrorResult

/-- Modelled from the spec (§6), instrumented with the executor-call count:
an invalid policy is rejected before any attempt is issued. -/
def acquireValidatedCalls (p : RetryPolicy) (exec : Nat → AttemptOutcome) :
    Option RetryResult × Nat :=
  if validPolicy p then acquireCalls p exec else (some configErrorResult, 0)

/-- The scripted executor of the source's simulation: retryable
`InsufficientInstanceCapacity` for the first three attempts, success with the
stubbed reservation id on the fourth. -/
def scriptedExec : Nat → AttemptOutcome := fun attempt =>
  if attempt ≤ 3 then .retryableFailure "Simulated capacity not available"
  else .success "cr-test-123456789"

/-- An executor that always reports a retryable capacity failure. -/
def alwaysRetryExec : Nat → AttemptOutcome := fun _ =>
  .retryableFailure "Simulated capacity not available"

/-- An executor that reports a non-retryable provider error on every attempt
(modelled from the spec: the simulation in `src/` never scripts one). -/
def fatalExec : Nat → AttemptOutcome := fun _ =>
  .fatalFailure "Malformed request"

/-- The policy of the source's `test_simulation`: 60 minutes, 30 s initial
interval, 300 s cap, multiplier 2. -/
def testPolicy : RetryPolicy :=
  { maxDuration := 3600, initialInterval := 30, maxInterval := 300,
    backoffMultiplier := 2 }

/-- A policy whose budget equals its initial interval (`remaining ==
currentInterval` holds at the first retryable failure). -/
def boundaryPolicy : RetryPolicy :=
  { maxDuration := 30, initialInterval := 30, maxInterval := 300,
    backoffMultiplier := 2 }

/-- A policy whose budget is smaller than its initial interval. -/
def tinyBudgetPolicy : RetryPolicy :=
  { maxDuration := 10, initialInterval := 30, maxInterval := 300,
    backoffMultiplier := 2 }

/-- A policy violating the validity invariant: `maxInterval < initialInterval`. -/
def invalidPolicy : RetryPolicy :=
  { maxDuration := 3600, initialInterval := 30, maxInterval := 10,
    backoffMultiplier := 2 }

/-- Python `str.lower()` on a character sequence.  `Char.toLower` lowercases
the basic latin letters, matching Python for ASCII input. -/
def pyLower (s : List Char) : List Char :=
  s.map Char.toLower

/-- Python `str.strip()`: drop leading and trailing whitespace. -/
def pyStrip (s : List Char) : List Char :=
  ((s.dropWhile Char.isWhitespace).reverse.dropWhile Char.isWhitespace).reverse

/-- `list(dict.fromkeys(xs))` (the dedup step of
`generate_login_permutations`): keep the first occurrence of each element,
drop later duplicates; `seen` carries the keys already emitted. -/
def dedupFirstAux {α : Type} [DecidableEq α] (seen : List α) : List α → List α
  | [] => []
  | a :: l =>
    if a ∈ seen then dedupFirstAux seen l else a :: dedupFirstAux (a :: seen) l

/-- `list(dict.fromkeys(xs))` with no keys seen yet. -/
def dedupFirst {α : Type} [DecidableEq α] (l : List α) : List α :=
  dedupFirstAux [] l

/-- The 22 candidate logins of `generate_login_permutations`, in source
order, built from the already lowercased and stripped `first`/`last`.
Python `s[:n]` is `take n`, `s[0]` is `headI`, `s[-1]` is `getLastD`
(both lists are nonempty wherever this is used, so the defaults are inert),
and `str(len(last))` is the decimal digit list of the length. -/
def raw_login_permutations (first last : List Char) : List (List Char) :=
  [ first ++ last,
    first ++ ['.'] ++ last,
    [first.headI] ++ last,
    first ++ [last.headI],
    first.take 3 ++ last.take 3,
    last ++ first,
    last ++ ['.'] ++ first,
    last ++ [first.headI],
    first ++ Nat.toDigits 10 last.length,
    [first.headI] ++ ['.'] ++ last,
    first.take 3 ++ ['.'] ++ last.take 3,
    first ++ ['_'] ++ last,
    last ++ ['_'] ++ first,
    [first.headI] ++ ['_'] ++ last,
    first.take 2 ++ last.take 3,
    first.take 4 ++ last.take 2,
    first ++ last.take 4,
    last.take 4 ++ first.take 4,
    [first.headI] ++ last.take 4,
    first.take 4 ++ [last.headI],
    [first.headI, first.getLastD ' ', last.headI, last.getLastD ' '],
    first.take 2 ++ last.take 2 ]

/-- `generate_login_permutations` from `src/login_matcher.py`: lowercase and
strip both names, build the candidate list, and dedup keeping first
occurrences.  When a stripped name is empty, Python raises `IndexError` at
the first `first[0]`/`last[0]`/`[-1]` indexing; that exit is modelled as
`none`. -/
def generate_login_permutations (first_name last_name : List Char) :
    Option (List (List Char)) :=
  let first := pyStrip (pyLower first_name)
  let last := pyStrip (pyLower last_name)
  if first = [] ∨ last = [] then none
  else some (dedupFirst (raw_login_permutations first last))

/-- Python dict lookup `d[k]` on an association list (dict keys are unique,
so the first binding is the binding). -/
def dictLookup {K V : Type} [DecidableEq K] : List (K × V) → K → Option V
  | [], _ => none
  | (k', v') :: rest, k => if k' = k then some v' else dictLookup rest k

/-- Python dict assignment `d[k] = v`: replace the binding in place if the
key is present, else append. -/
def dictInsert {K V : Type} [DecidableEq K] : List (K × V) → K → V → List (K × V)
  | [], k, v => [(k, v)]
  | (k', v') :: rest, k, v =>
      if k' = k then (k, v) :: rest else (k', v') :: dictInsert rest k v

/-- The per-name loop of `find_matching_logins`: for each `(first_name,
last_name)` generate the candidates, keep those whose id occurs among the
existing logins (`found_matches`, in candidate order), and when nonempty
record `[existing_logins[login] for login in found_matches]` under the name
(dict assignment) and add `found_matches` to the matched-login set
(`set.update`, modelled as append — only membership is consumed).  A raise
inside `generate_login_permutations` aborts the whole call (`none`). -/
def find_matching_aux {D : Type} (existing_logins : List (List Char × D)) :
    List (List Char × List Char) →
    List ((List Char × List Char) × List D) → List (List Char) →
    Option (List ((List Char × List Char) × List D) × List (List Char))
  | [], matchesAcc, matched_logins => some (matchesAcc, matched_logins)
  | (first_name, last_name) :: rest, matchesAcc, matched_logins =>
    match generate_login_permutations first_name last_name with
    | none => none
    | some possible_logins =>
      let found_matches := possible_logins.filter
        (fun login => decide (login ∈ existing_logins.map Prod.fst))
      if found_matches = [] then
        find_matching_aux existing_logins rest matchesAcc matched_logins
      else
        find_matching_aux existing_logins rest
          (dictInsert matchesAcc (first_name, last_name)
            (found_matches.filterMap (dictLookup existing_logins)))
          (matched_logins ++ found_matches)

/-- `find_matching_logins` from `src/login_matcher.py`: run the per-name
loop starting from empty `matches`/`matched_logins`, then keep as
`non_matches` the existing logins (with their data, in dict order) whose id
was never matched. -/
def find_matching_logins {D : Type} (names_list : List (List Char × List Char))
    (existing_logins : List (List Char × D)) :
    Option (List ((List Char × List Char) × List D) × List (List Char × D)) :=
  match find_matching_aux existing_logins names_list [] [] with
  | none => none
  | some (matchesAcc, matched_logins) =>
      some (matchesAcc, existing_logins.filter
        (fun q => decide (q.1 ∉ matched_logins)))

/-- The candidate list a name generates; `[]` when generation raises. -/
def permsOf (q : List Char × List Char) : List (List Char) :=
  (generate_login_permutations q.1 q.2).getD []

/-- `login` is one of the generated permutations of the name `q`. -/
def isPermName (q : List Char × List Char) (login : List Char) : Prop :=
  ∃ ps, generate_login_permutations q.1 q.2 = some ps ∧ login ∈ ps

/-- The candidates of `q` that occur among the existing login ids
(`found_matches` for the name `q`). -/
def foundOf {D : Type} (existing_logins : List (List Char × D))
    (q : List Char × List Char) : List (List Char) :=
  (permsOf q).filter (fun login => decide (login ∈ existing_logins.map Prod.fst))

/-- The data recorded for the name `q` when it matches
(`[existing_logins[login] for login in found_matches]`). -/
def valOf {D : Type} (existing_logins : List (List Char × D))
    (q : List Char × List Char) : List D :=
  (foundOf existing_logins q).filterMap (dictLookup existing_logins)

theorem acquireLoopCalls_fst (p : RetryPolicy) (exec : Nat → AttemptOutcome) :
    ∀ (fuel : Nat) (e c : ℚ) (a calls : Nat),
      (acquireLoopCalls p exec fuel e c a calls).1 = acquireLoop p exec fuel e c a := by
  intro fuel
  induction fuel with
  | zero => intro e c a calls; rfl
  | succ n ih =>
    intro e c a calls
    simp only [acquireLoopCalls, acquireLoop]
    by_cases hg : e < (p.maxDuration : ℚ)
    · simp only [if_pos hg]
      cases exec a with
      | success cid => rfl
      | fatalFailure reason => rfl
      | retryableFailure reason =>
        by_cases hr : (p.maxDuration : ℚ) - e < c
        · simp only [if_pos hr]
        · simp only [if_neg hr]; exact ih _ _ _ _
    · simp only [if_neg hg]

theorem acquireLoop_step_sleep (p : RetryPolicy) (exec : Nat → AttemptOutcome)
    (fuel : Nat) (e c : ℚ) (a : Nat) (reason : String)
    (hg : e < (p.maxDuration : ℚ)) (hexec : exec a = .retryableFailure reason)
    (hfit : ¬ ((p.maxDuration : ℚ) - e < c)) :
    acquireLoop p exec (fuel + 1) e c a =
      acquireLoop p exec fuel (e + c)
        (min (c * p.backoffMultiplier) (p.maxInterval : ℚ)) (a + 1) := by
  simp [acquireLoop, if_pos hg, hexec, if_neg hfit]

theorem acquireLoop_step_exceeded (p : RetryPolicy) (exec : Nat → AttemptOutcome)
    (fuel : Nat) (e c : ℚ) (a : Nat) (hg : ¬ (e < (p.maxDuration : ℚ))) :
    acquireLoop p exec (fuel + 1) e c a =
      some { success := false, capacityReservationId := none,
             error := some (exceededMsg p.maxDuration a),
             attempts := a, totalDuration := p.maxDuration,
             finalInterval := c } := by
  simp [acquireLoop, if_neg hg]

theorem acquireLoopCalls_step_sleep (p : RetryPolicy) (exec : Nat → AttemptOutcome)
    (fuel : Nat) (e c : ℚ) (a calls : Nat) (reason : String)
    (hg : e < (p.maxDuration : ℚ)) (hexec : exec a = .retryableFailure reason)
    (hfit : ¬ ((p.maxDuration : ℚ) - e < c)) :
    acquireLoopCalls p exec (fuel + 1) e c a calls =
      acquireLoopCalls p exec fuel (e + c)
        (min (c * p.backoffMultiplier) (p.maxInterval : ℚ)) (a + 1) (calls + 1) := by
  simp [acquireLoopCalls, if_pos hg, hexec, if_neg hfit]

theorem acquireLoopCalls_step_exceeded (p : RetryPolicy) (exec : Nat → AttemptOutcome)
    (fuel : Nat) (e c : ℚ) (a calls : Nat) (hg : ¬ (e < (p.maxDuration : ℚ))) :
    acquireLoopCalls p exec (fuel + 1) e c a calls =
      (some { success := false, capacityReservationId := none,
              error := some (exceededMsg p.maxDuration a),
              attempts := a, totalDuration := p.maxDuration,
              finalInterval := c }, calls) := by
  simp [acquireLoopCalls, if_neg hg]

theorem intervalAt_ge_init (p : RetryPolicy) (hi : 0 < p.initialInterval)
    (him : p.initialInterval ≤ p.maxInterval) (hb : 1 ≤ p.backoffMultiplier) :
    ∀ n, (p.initialInterval : ℚ) ≤ intervalAt p n := by
  intro n
  induction n with
  | zero => simp [intervalAt]
  | succ m ih =>
    have hpos : (0 : ℚ) < (p.initialInterval : ℚ) := by exact_mod_cast hi
    have h1 : intervalAt p m ≤ intervalAt p m * p.backoffMultiplier := by
      nlinarith
    have h2 : (p.initialInterval : ℚ) ≤ (p.maxInterval : ℚ) := by exact_mod_cast him
    simp only [intervalAt, le_min_iff]
    exact ⟨le_trans ih h1, h2⟩

theorem intervalAt_le_max (p : RetryPolicy) (him : p.initialInterval ≤ p.maxInterval) :
    ∀ n, intervalAt p n ≤ (p.maxInterval : ℚ) := by
  intro n
  cases n with
  | zero => simpa [intervalAt] using (by exact_mod_cast him : (p.initialInterval : ℚ) ≤ (p.maxInterval : ℚ))
  | succ m => simp [intervalAt]

theorem elapsedAt_ge (p : RetryPolicy) (hi : 0 < p.initialInterval)
    (him : p.initialInterval ≤ p.maxInterval) (hb : 1 ≤ p.backoffMultiplier) :
    ∀ n : Nat, (n : ℚ) * (p.initialInterval : ℚ) ≤ elapsedAt p n := by
  intro n
  induction n with
  | zero => simp [elapsedAt]
  | succ m ih =>
    have h := intervalAt_ge_init p hi him hb m
    simp only [elapsedAt]
    push_cast
    linarith

theorem elapsedAt_le_add (p : RetryPolicy) (hi : 0 < p.initialInterval)
    (him : p.initialInterval ≤ p.maxInterval) (hb : 1 ≤ p.backoffMultiplier) :
    ∀ d n, elapsedAt p n ≤ elapsedAt p (n + d) := by
  intro d
  induction d with
  | zero => intro n; simp
  | succ m ih =>
    intro n
    have h0 : (0 : ℚ) < (p.initialInterval : ℚ) := by exact_mod_cast hi
    have h := intervalAt_ge_init p hi him hb (n + m)
    have : elapsedAt p (n + m) ≤ elapsedAt p (n + m + 1) := by
      simp only [elapsedAt]; linarith
    calc elapsedAt p n ≤ elapsedAt p (n + m) := ih n
      _ ≤ elapsedAt p (n + m + 1) := this

/-- Claim C2: after a retryable failure, if the remaining budget
`maxDuration - elapsed` is strictly below the current interval, the call
returns at once — elapsed time and attempt count unchanged, so no sleep —
with `success = false` and the `InsufficientCapacity after N attempts over
E seconds` error carrying the current counters; in particular a policy with
`maxDuration < initialInterval` turns the very first retryable failure into
an immediate `{success := false, attempts := 1}` with no wait. -/
theorem retry_c2 (p : RetryPolicy) (exec : Nat → AttemptOutcome) :
    (∀ (fuel : Nat) (e c : ℚ) (a : Nat) (reason : String),
        e < (p.maxDuration : ℚ) → exec a = .retryableFailure reason →
        (p.maxDuration : ℚ) - e < c →
        acquireLoop p exec (fuel + 1) e c a =
          some { success := false, capacityReservationId := none,
                 error := some (insufficientMsg a ⌊e⌋), attempts := a,
                 totalDuration := ⌊e⌋, finalInterval := c }) ∧
    (∀ reason : String, 0 < p.maxDuration → p.maxDuration < p.initialInterval →
        exec 1 = .retryableFailure reason →
        acquire p exec =
          some { success := false, capacityReservationId := none,
                 error := some (insufficientMsg 1 0), attempts := 1,
                 totalDuration := 0, finalInterval := (p.initialInterval : ℚ) }) := by
  have main : ∀ (fuel : Nat) (e c : ℚ) (a : Nat) (reason : String),
      e < (p.maxDuration : ℚ) → exec a = .retryableFailure reason →
      (p.maxDuration : ℚ) - e < c →
      acquireLoop p exec (fuel + 1) e c a =
        some { success := false, capacityReservationId := none,
               error := some (insufficientMsg a ⌊e⌋), attempts := a,
               totalDuration := ⌊e⌋, finalInterval := c } := by
    intro fuel e c a reason hg hexec hr
    simp [acquireLoop, if_pos hg, hexec, if_pos hr]
  refine ⟨main, ?_⟩
  intro reason hpos hsmall hexec
  have hg : (0 : ℚ) < (p.maxDuration : ℚ) := by exact_mod_cast hpos
  have hr : (p.maxDuration : ℚ) - 0 < (p.initialInterval : ℚ) := by
    have : (p.maxDuration : ℚ) < (p.initialInterval : ℚ) := by exact_mod_cast hsmall
    linarith
  have h := main p.maxDuration.toNat 0 (p.initialInterval : ℚ) 1 reason hg hexec hr
  simpa [acquire, retryFuel] using h

/-- Witness for C2: with a 10-second budget and a 30-second initial interval,
the first retryable failure returns at once with one attempt, zero elapsed
time and the insufficient-capacity error. -/
theorem retry_c2_witness :
    acquire tinyBudgetPolicy alwaysRetryExec =
      some { success := false, capacityReservationId := none,
             error := some (insufficientMsg 1 0), attempts := 1,
             totalDuration := 0, finalInterval := 30 } := by
  have h := (retry_c2 tinyBudgetPolicy alwaysRetryExec).2
    "Simulated capacity not available" (by decide) (by decide) rfl
  simpa [tinyBudgetPolicy] using h

/-- Claim C3 (amended): when the remaining budget exactly equals the current
interval after a retryable failure, the comparison `remaining <
current_interval` is false, so the call sleeps the full interval, after which
`elapsed` equals `maxDuration`, the loop guard fails, and the call returns
the `Exceeded maximum retry duration` error with the attempt counter already
incremented — it does not return the insufficient-capacity result. -/
theorem retry_c3 (p : RetryPolicy) (exec : Nat → AttemptOutcome) :
    ∀ (fuel : Nat) (e c : ℚ) (a : Nat) (reason : String),
      e < (p.maxDuration : ℚ) → exec a = .retryableFailure reason →
      (p.maxDuration : ℚ) - e = c →
      acquireLoop p exec (fuel + 2) e c a =
        some { success := false, capacityReservationId := none,
               error := some (exceededMsg p.maxDuration (a + 1)), attempts := a + 1,
               totalDuration := p.maxDuration,
               finalInterval := min (c * p.backoffMultiplier) (p.maxInterval : ℚ) } := by
  intro fuel e c a reason hg hexec hr
  have hnotlt : ¬ ((p.maxDuration : ℚ) - e < c) := by rw [hr]; exact lt_irrefl c
  have hsum : e + c = (p.maxDuration : ℚ) := by linarith
  have step1 : acquireLoop p exec (fuel + 1 + 1) e c a =
      acquireLoop p exec (fuel + 1) (e + c)
        (min (c * p.backoffMultiplier) (p.maxInterval : ℚ)) (a + 1) := by
    simp [acquireLoop, if_pos hg, hexec, if_neg hnotlt]
  have step2 : acquireLoop p exec (fuel + 1) (e + c)
      (min (c * p.backoffMultiplier) (p.maxInterval : ℚ)) (a + 1) =
      some { success := false, capacityReservationId := none,
             error := some (exceededMsg p.maxDuration (a + 1)), attempts := a + 1,
             totalDuration := p.maxDuration,
             finalInterval := min (c * p.backoffMultiplier) (p.maxInterval : ℚ) } := by
    have : ¬ (e + c < (p.maxDuration : ℚ)) := by rw [hsum]; exact lt_irrefl _
    simp [acquireLoop, if_neg this]
  exact step1.trans step2

/-- Counterexample to C3 as stated: with a 30-second budget, 30-second
initial interval and an always-retryable executor, the first failure sees
`remaining == currentInterval == 30`; the call does NOT return the
insufficient-capacity result — it sleeps 30 seconds (visible as
`totalDuration = 30`), increments the attempt counter, and exits with the
`Exceeded maximum retry duration` error. -/
theorem retry_c3_counterexample :
    acquire boundaryPolicy alwaysRetryExec =
      some { success := false, capacityReservationId := none,
             error := some (exceededMsg 30 2), attempts := 2,
             totalDuration := 30, finalInterval := 60 } ∧
    exceededMsg 30 2 ≠ insufficientMsg 1 0 := by
  constructor
  · have h0 : acquire boundaryPolicy alwaysRetryExec =
        acquireLoop boundaryPolicy alwaysRetryExec (30 + 1) 0 30 1 := rfl
    have h1 := acquireLoop_step_sleep boundaryPolicy alwaysRetryExec 30 0 30 1
      "Simulated capacity not available" (by norm_num [boundaryPolicy]) rfl
      (by norm_num [boundaryPolicy])
    have h2 := acquireLoop_step_exceeded boundaryPolicy alwaysRetryExec 29
      (0 + 30) (min (30 * boundaryPolicy.backoffMultiplier)
        (boundaryPolicy.maxInterval : ℚ)) 2 (by norm_num [boundaryPolicy])
    have hmin : min (30 * boundaryPolicy.backoffMultiplier)
        ((boundaryPolicy.maxInterval : ℤ) : ℚ) = 60 := by
      show min ((30 : ℚ) * 2) (((300 : ℤ) : ℚ)) = 60
      norm_num
    rw [h0, h1, h2, hmin]; rfl
  · decide

/-- Witness for C3 (amended): the boundary run above, reached by applying
the amended theorem at the concrete state of the first attempt. -/
theorem retry_c3_witness :
    acquireLoop boundaryPolicy alwaysRetryExec 31 0 30 1 =
      some { success := false, capacityReservationId := none,
             error := some (exceededMsg boundaryPolicy.maxDuration 2), attempts := 2,
             totalDuration := boundaryPolicy.maxDuration,
             finalInterval := min (30 * boundaryPolicy.backoffMultiplier)
               (boundaryPolicy.maxInterval : ℚ) } := by
  exact retry_c3 boundaryPolicy alwaysRetryExec 29 0 30 1
    "Simulated capacity not available" (by norm_num [boundaryPolicy])
    rfl (by norm_num [boundaryPolicy])

/-- Claim C4: a fatal (non-retryable) failure makes the call return on that
very attempt with `success = false` and the fatal reason as the error, the
attempt counter and elapsed time unchanged (no sleep), and exactly one more
executor invocation (no retry); additionally, a fatal failure on attempt 1
under a positive budget ends the whole call with `attempts = 1` and zero
elapsed time. -/
theorem retry_c4 (p : RetryPolicy) (exec : Nat → AttemptOutcome) :
    (∀ (fuel calls : Nat) (e c : ℚ) (a : Nat) (reason : String),
        e < (p.maxDuration : ℚ) → exec a = .fatalFailure reason →
        acquireLoop p exec (fuel + 1) e c a =
          some { success := false, capacityReservationId := none,
                 error := some reason, attempts := a,
                 totalDuration := ⌊e⌋, finalInterval := c } ∧
        acquireLoopCalls p exec (fuel + 1) e c a calls =
          (some { success := false, capacityReservationId := none,
                  error := some reason, attempts := a,
                  totalDuration := ⌊e⌋, finalInterval := c }, calls + 1)) ∧
    (∀ reason : String, 0 < p.maxDuration → exec 1 = .fatalFailure reason →
        acquire p exec =
          some { success := false, capacityReservationId := none,
                 error := some reason, attempts := 1,
                 totalDuration := 0, finalInterval := (p.initialInterval : ℚ) }) := by
  have main : ∀ (fuel calls : Nat) (e c : ℚ) (a : Nat) (reason : String),
      e < (p.maxDuration : ℚ) → exec a = .fatalFailure reason →
      acquireLoop p exec (fuel + 1) e c a =
        some { success := false, capacityReservationId := none,
               error := some reason, attempts := a,
               totalDuration := ⌊e⌋, finalInterval := c } ∧
      acquireLoopCalls p exec (fuel + 1) e c a calls =
        (some { success := false, capacityReservationId := none,
                error := some reason, attempts := a,
                totalDuration := ⌊e⌋, finalInterval := c }, calls + 1) := by
    intro fuel calls e c a reason hg hexec
    constructor
    · simp [acquireLoop, if_pos hg, hexec]
    · simp [acquireLoopCalls, if_pos hg, hexec]
  refine ⟨main, ?_⟩
  intro reason hpos hexec
  have hg : (0 : ℚ) < (p.maxDuration : ℚ) := by exact_mod_cast hpos
  have h := (main p.maxDuration.toNat 0 0 (p.initialInterval : ℚ) 1 reason hg hexec).1
  simpa [acquire, retryFuel] using h

/-- Witness for C4: a fatal failure on attempt 1 of the test policy ends the
call immediately with one attempt and no wait. -/
theorem retry_c4_witness :
    acquire testPolicy fatalExec =
      some { success := false, capacityReservationId := none,
             error := some "Malformed request", attempts := 1,
             totalDuration := 0, finalInterval := 30 } := by
  have h := (retry_c4 testPolicy fatalExec).2 "Malformed request" (by decide) rfl
  simpa [testPolicy] using h

/-- Claim C5: after every retryable failure that proceeds to sleep, the loop
re-enters with the interval updated to
`min(currentInterval * backoffMultiplier, maxInterval)` and the attempt
counter incremented by one; the interval sequence obeys exactly that
recurrence, under `initialInterval ≤ maxInterval` it never exceeds
`maxInterval` in any reachable loop state, and for
`initialInterval = 30, maxInterval = 300, backoffMultiplier = 2` the
successive values are 30, 60, 120, 240, 300, 300. -/
theorem retry_c5 :
    (∀ (p : RetryPolicy) (exec : Nat → AttemptOutcome) (fuel : Nat) (e c : ℚ)
        (a : Nat) (reason : String),
        e < (p.maxDuration : ℚ) → exec a = .retryableFailure reason →
        ¬ ((p.maxDuration : ℚ) - e < c) →
        acquireLoop p exec (fuel + 1) e c a =
          acquireLoop p exec fuel (e + c)
            (min (c * p.backoffMultiplier) (p.maxInterval : ℚ)) (a + 1)) ∧
    (∀ (p : RetryPolicy) (n : Nat),
        intervalAt p (n + 1) =
          min (intervalAt p n * p.backoffMultiplier) (p.maxInterval : ℚ)) ∧
    (∀ p : RetryPolicy, p.initialInterval ≤ p.maxInterval →
        ∀ n, intervalAt p n ≤ (p.maxInterval : ℚ)) ∧
    (intervalAt testPolicy 0 = 30 ∧ intervalAt testPolicy 1 = 60 ∧
     intervalAt testPolicy 2 = 120 ∧ intervalAt testPolicy 3 = 240 ∧
     intervalAt testPolicy 4 = 300 ∧ intervalAt testPolicy 5 = 300) := by
  refine ⟨?_, fun p n => rfl, fun p him n => intervalAt_le_max p him n, ?_⟩
  · intro p exec fuel e c a reason hg hexec hfit
    exact acquireLoop_step_sleep p exec fuel e c a reason hg hexec hfit
  · have i0 : intervalAt testPolicy 0 = 30 := rfl
    have i1 : intervalAt testPolicy 1 = 60 := by
      have h : intervalAt testPolicy 1 =
          min (intervalAt testPolicy 0 * testPolicy.backoffMultiplier)
            ((testPolicy.maxInterval : ℤ) : ℚ) := rfl
      rw [h, i0]; norm_num [testPolicy]
    have i2 : intervalAt testPolicy 2 = 120 := by
      have h : intervalAt testPolicy 2 =
          min (intervalAt testPolicy 1 * testPolicy.backoffMultiplier)
            ((testPolicy.maxInterval : ℤ) : ℚ) := rfl
      rw [h, i1]; norm_num [testPolicy]
    have i3 : intervalAt testPolicy 3 = 240 := by
      have h : intervalAt testPolicy 3 =
          min (intervalAt testPolicy 2 * testPolicy.backoffMultiplier)
            ((testPolicy.maxInterval : ℤ) : ℚ) := rfl
      rw [h, i2]; norm_num [testPolicy]
    have i4 : intervalAt testPolicy 4 = 300 := by
      have h : intervalAt testPolicy 4 =
          min (intervalAt testPolicy 3 * testPolicy.backoffMultiplier)
            ((testPolicy.maxInterval : ℤ) : ℚ) := rfl
      rw [h, i3]; norm_num [testPolicy]
    have i5 : intervalAt testPolicy 5 = 300 := by
      have h : intervalAt testPolicy 5 =
          min (intervalAt testPolicy 4 * testPolicy.backoffMultiplier)
            ((testPolicy.maxInterval : ℤ) : ℚ) := rfl
      rw [h, i4]; norm_num [testPolicy]
    exact ⟨i0, i1, i2, i3, i4, i5⟩

/-- Witness for C5: one concrete sleeping step of the test policy re-enters
the loop with interval `min(30 * 2, 300)` and attempt 2, and the interval at
index 9 is still within the 300-second cap. -/
theorem retry_c5_witness :
    acquireLoop testPolicy alwaysRetryExec (3600 + 1) 0 30 1 =
      acquireLoop testPolicy alwaysRetryExec 3600 (0 + 30)
        (min (30 * testPolicy.backoffMultiplier) (testPolicy.maxInterval : ℚ)) (1 + 1) ∧
    intervalAt testPolicy 9 ≤ (testPolicy.maxInterval : ℚ) := by
  constructor
  · exact retry_c5.1 testPolicy alwaysRetryExec 3600 0 30 1
      "Simulated capacity not available" (by norm_num [testPolicy]) rfl
      (by norm_num [testPolicy])
  · exact retry_c5.2.2.1 testPolicy (by norm_num [testPolicy]) 9

theorem acquireLoop_bound (p : RetryPolicy) (exec : Nat → AttemptOutcome) :
    ∀ (fuel : Nat) (e c : ℚ) (a : Nat) (r : RetryResult),
      acquireLoop p exec fuel e c a = some r → r.totalDuration ≤ p.maxDuration := by
  intro fuel
  induction fuel with
  | zero => intro e c a r h; simp [acquireLoop] at h
  | succ n ih =>
    intro e c a r h
    rw [acquireLoop] at h
    by_cases hg : e < (p.maxDuration : ℚ)
    · rw [if_pos hg] at h
      have hfl : ⌊e⌋ ≤ p.maxDuration := le_of_lt (Int.floor_lt.mpr hg)
      cases hexec : exec a with
      | success cid => rw [hexec] at h; simp at h; rw [← h]; exact hfl
      | fatalFailure reason => rw [hexec] at h; simp at h; rw [← h]; exact hfl
      | retryableFailure reason =>
        rw [hexec] at h
        by_cases hr : (p.maxDuration : ℚ) - e < c
        · rw [if_pos hr] at h; simp at h; rw [← h]; exact hfl
        · rw [if_neg hr] at h; exact ih _ _ _ _ h
    · rw [if_neg hg] at h; simp at h; rw [← h]

theorem acquireLoop_isSome (p : RetryPolicy) (exec : Nat → AttemptOutcome)
    (hi : 0 < p.initialInterval) (him : p.initialInterval ≤ p.maxInterval)
    (hb : 1 ≤ p.backoffMultiplier) :
    ∀ (fuel : Nat) (e c : ℚ) (a : Nat),
      (p.initialInterval : ℚ) ≤ c →
      (p.maxDuration : ℚ) ≤ e + (fuel : ℚ) * (p.initialInterval : ℚ) →
      (acquireLoop p exec (fuel + 1) e c a).isSome := by
  intro fuel
  induction fuel with
  | zero =>
    intro e c a hc hbound
    have hg : ¬ (e < (p.maxDuration : ℚ)) := by push_cast at hbound; push_neg; linarith
    rw [acquireLoop, if_neg hg]
    rfl
  | succ n ih =>
    intro e c a hc hbound
    rw [acquireLoop]
    by_cases hg : e < (p.maxDuration : ℚ)
    · rw [if_pos hg]
      cases hexec : exec a with
      | success cid => rfl
      | fatalFailure reason => rfl
      | retryableFailure reason =>
        by_cases hr : (p.maxDuration : ℚ) - e < c
        · rw [if_pos hr]; rfl
        · rw [if_neg hr]
          have hipos : (0 : ℚ) < (p.initialInterval : ℚ) := by exact_mod_cast hi
          have hcpos : (0 : ℚ) < c := lt_of_lt_of_le hipos hc
          have hmin : (p.initialInterval : ℚ) ≤
              min (c * p.backoffMultiplier) ((p.maxInterval : ℤ) : ℚ) := by
            refine le_min ?_ ?_
            · nlinarith
            · exact_mod_cast him
          refine ih (e + c) _ (a + 1) hmin ?_
          push_cast at hbound ⊢
          linarith
    · rw [if_neg hg]; rfl

/-- Claim C6: for every policy satisfying the validity invariant (positive
budget and initial interval, `initialInterval ≤ maxInterval`) — including the
edge cases `backoffMultiplier == 1` and `maxInterval == initialInterval`,
covered by the hypothesis `1 ≤ backoffMultiplier` — and every scripted
executor, the retry call terminates with a result whose recorded elapsed time
is bounded by `maxDuration` (attempts take zero logical time in this model,
so the spec's one-attempt-latency slack is not needed). -/
theorem retry_c6 (p : RetryPolicy) (exec : Nat → AttemptOutcome)
    (hd : 0 < p.maxDuration) (hi : 0 < p.initialInterval)
    (him : p.initialInterval ≤ p.maxInterval) (hb : 1 ≤ p.backoffMultiplier) :
    ∃ r : RetryResult, acquire p exec = some r ∧ r.totalDuration ≤ p.maxDuration := by
  have hone : (1 : ℤ) ≤ p.initialInterval := hi
  have hbound : (p.maxDuration : ℚ) ≤ 0 + (p.maxDuration.toNat : ℚ) * (p.initialInterval : ℚ) := by
    have h1 : (p.maxDuration : ℚ) ≤ (p.maxDuration.toNat : ℚ) := by
      exact_mod_cast Int.self_le_toNat p.maxDuration
    have h2 : (p.maxDuration.toNat : ℚ) ≤ (p.maxDuration.toNat : ℚ) * (p.initialInterval : ℚ) := by
      have hq : (1 : ℚ) ≤ (p.initialInterval : ℚ) := by exact_mod_cast hone
      nlinarith [Nat.cast_nonneg (α := ℚ) p.maxDuration.toNat]
    linarith
  have hsome := acquireLoop_isSome p exec hi him hb p.maxDuration.toNat 0
    (p.initialInterval : ℚ) 1 (le_refl _) hbound
  have hacq : acquire p exec = acquireLoop p exec (p.maxDuration.toNat + 1) 0
      (p.initialInterval : ℚ) 1 := rfl
  rw [← hacq] at hsome
  obtain ⟨r, hr⟩ := Option.isSome_iff_exists.mp hsome
  refine ⟨r, hr, ?_⟩
  rw [hacq] at hr
  exact acquireLoop_bound p exec _ _ _ _ _ hr

/-- Witness for C6: the source's test policy with an executor that never
succeeds still terminates, with elapsed time within the hour budget. -/
theorem retry_c6_witness :
    ∃ r : RetryResult, acquire testPolicy alwaysRetryExec = some r ∧
      r.totalDuration ≤ testPolicy.maxDuration :=
  retry_c6 testPolicy alwaysRetryExec (by norm_num [testPolicy])
    (by norm_num [testPolicy]) (by norm_num [testPolicy]) (by norm_num [testPolicy])

theorem acquireLoopCalls_step_fatal (p : RetryPolicy) (exec : Nat → AttemptOutcome)
    (fuel : Nat) (e c : ℚ) (a calls : Nat) (reason : String)
    (hg : e < (p.maxDuration : ℚ)) (hexec : exec a = .fatalFailure reason) :
    acquireLoopCalls p exec (fuel + 1) e c a calls =
      (some { success := false, capacityReservationId := none,
              error := some reason, attempts := a,
              totalDuration := ⌊e⌋, finalInterval := c }, calls + 1) := by
  simp [acquireLoopCalls, if_pos hg, hexec]

theorem acquireLoopCalls_attempts (p : RetryPolicy) (exec : Nat → AttemptOutcome) :
    ∀ (fuel : Nat) (e c : ℚ) (a calls : Nat) (r : RetryResult) (n : Nat),
      a = calls + 1 → acquireLoopCalls p exec fuel e c a calls = (some r, n) →
      r.attempts = n ∨
        (r.attempts = n + 1 ∧ r.success = false ∧
          r.error = some (exceededMsg p.maxDuration r.attempts)) := by
  intro fuel
  induction fuel with
  | zero => intro e c a calls r n ha h; simp [acquireLoopCalls] at h
  | succ m ih =>
    intro e c a calls r n ha h
    rw [acquireLoopCalls] at h
    by_cases hg : e < (p.maxDuration : ℚ)
    · rw [if_pos hg] at h
      cases hexec : exec a with
      | success cid =>
        rw [hexec] at h; simp [Prod.ext_iff] at h
        left; rw [← h.1, ← h.2]; exact ha
      | fatalFailure reason =>
        rw [hexec] at h; simp [Prod.ext_iff] at h
        left; rw [← h.1, ← h.2]; exact ha
      | retryableFailure reason =>
        rw [hexec] at h
        by_cases hr : (p.maxDuration : ℚ) - e < c
        · rw [if_pos hr] at h; simp [Prod.ext_iff] at h
          left; rw [← h.1, ← h.2]; exact ha
        · rw [if_neg hr] at h
          exact ih _ _ _ _ _ _ (by omega) h
    · rw [if_neg hg] at h; simp [Prod.ext_iff] at h
      right
      refine ⟨?_, ?_, ?_⟩
      · rw [← h.1, ← h.2]; exact ha
      · rw [← h.1]
      · rw [← h.1]

/-- Claim C7 (amended): on the success, fatal-failure and
insufficient-capacity exits the returned `attempts` equals the number of
attempts actually issued to the executor; on the deadline-exceeded loop exit
(the only exit carrying the `Exceeded maximum retry duration` error) it
equals the number issued plus one, because the counter is incremented after
the final sleep and the loop exits before issuing another attempt.  The
elapsed-time field is populated on every exit (it is a total field of the
result). -/
theorem retry_c7 (p : RetryPolicy) (exec : Nat → AttemptOutcome)
    (r : RetryResult) (n : Nat) (h : acquireCalls p exec = (some r, n)) :
    r.attempts = n ∨
      (r.attempts = n + 1 ∧ r.success = false ∧
        r.error = some (exceededMsg p.maxDuration r.attempts)) :=
  acquireLoopCalls_attempts p exec (retryFuel p) 0 (p.initialInterval : ℚ) 1 0 r n
    rfl h

/-- Counterexample to C7 as stated: with a 30-second budget equal to the
initial interval and an always-retryable executor, exactly one attempt is
issued to the executor (second pair component `1`), yet the returned record
reports `attempts = 2` — the deadline-exceeded exit overcounts by one. -/
theorem retry_c7_counterexample :
    acquireCalls boundaryPolicy alwaysRetryExec =
      (some { success := false, capacityReservationId := none,
              error := some (exceededMsg 30 2), attempts := 2,
              totalDuration := 30, finalInterval := 60 }, 1) ∧
    (2 : Nat) ≠ 1 := by
  constructor
  · have h0 : acquireCalls boundaryPolicy alwaysRetryExec =
        acquireLoopCalls boundaryPolicy alwaysRetryExec (30 + 1) 0 30 1 0 := rfl
    have h1 := acquireLoopCalls_step_sleep boundaryPolicy alwaysRetryExec 30 0 30 1 0
      "Simulated capacity not available" (by norm_num [boundaryPolicy]) rfl
      (by norm_num [boundaryPolicy])
    have h2 := acquireLoopCalls_step_exceeded boundaryPolicy alwaysRetryExec 29
      (0 + 30) (min (30 * boundaryPolicy.backoffMultiplier)
        (boundaryPolicy.maxInterval : ℚ)) 2 1 (by norm_num [boundaryPolicy])
    have hmin : min (30 * boundaryPolicy.backoffMultiplier)
        ((boundaryPolicy.maxInterval : ℤ) : ℚ) = 60 := by
      show min ((30 : ℚ) * 2) (((300 : ℤ) : ℚ)) = 60
      norm_num
    rw [h0, h1, h2, hmin]; rfl
  · decide

/-- Witness for C7 (amended): a fatal failure on the first attempt issues
exactly one executor call and reports `attempts = 1`, matching the
non-exceeded branch of the disjunction. -/
theorem retry_c7_witness :
    ({ success := false, capacityReservationId := none,
       error := some "Malformed request", attempts := 1,
       totalDuration := 0, finalInterval := 30 } : RetryResult).attempts = 1 ∨
      (({ success := false, capacityReservationId := none,
          error := some "Malformed request", attempts := 1,
          totalDuration := 0, finalInterval := 30 } : RetryResult).attempts = 1 + 1 ∧
        ({ success := false, capacityReservationId := none,
           error := some "Malformed request", attempts := 1,
           totalDuration := 0, finalInterval := 30 } : RetryResult).success = false ∧
        ({ success := false, capacityReservationId := none,
           error := some "Malformed request", attempts := 1,
           totalDuration := 0, finalInterval := 30 } : RetryResult).error =
          some (exceededMsg testPolicy.maxDuration 1)) := by
  have heq : acquireCalls testPolicy fatalExec =
      (some { success := false, capacityReservationId := none,
              error := some "Malformed request", attempts := 1,
              totalDuration := 0, finalInterval := 30 }, 1) := by
    have h0 : acquireCalls testPolicy fatalExec =
        acquireLoopCalls testPolicy fatalExec (3600 + 1) 0 30 1 0 := rfl
    rw [h0, acquireLoopCalls_step_fatal testPolicy fatalExec 3600 0 30 1 0
      "Malformed request" (by norm_num [testPolicy]) rfl]
    norm_num
  exact retry_c7 testPolicy fatalExec _ 1 heq

/-- Claim C8: every invalid policy (non-positive durations, multiplier ≤ 1,
or `maxInterval < initialInterval`) is rejected with a configuration error
before any attempt: the validating entry point returns the configuration
error and the executor-call count is 0, so the loop is never entered. -/
theorem retry_c8 (p : RetryPolicy) (exec : Nat → AttemptOutcome)
    (h : p.maxDuration ≤ 0 ∨ p.initialInterval ≤ 0 ∨ p.maxInterval ≤ 0 ∨
         p.backoffMultiplier ≤ 1 ∨ p.maxInterval < p.initialInterval) :
    acquireValidatedCalls p exec = (some configErrorResult, 0) ∧
      acquireValidated p exec = some configErrorResult := by
  have hnv : ¬ validPolicy p := by
    intro hv
    obtain ⟨h1, h2, h3, h4⟩ := hv
    rcases h with h | h | h | h | h
    · omega
    · omega
    · omega
    · exact absurd h4 (not_lt.mpr h)
    · omega
  constructor
  · simp [acquireValidatedCalls, if_neg hnv]
  · simp [acquireValidated, if_neg hnv]

/-- Witness for C8: a policy with `maxInterval < initialInterval` is turned
away with zero executor calls. -/
theorem retry_c8_witness :
    acquireValidatedCalls invalidPolicy alwaysRetryExec = (some configErrorResult, 0) ∧
      acquireValidated invalidPolicy alwaysRetryExec = some configErrorResult :=
  retry_c8 invalidPolicy alwaysRetryExec (by right; right; right; right; norm_num [invalidPolicy])

theorem acquireLoop_run (p : RetryPolicy) (exec : Nat → AttemptOutcome)
    (hi : 0 < p.initialInterval) (him : p.initialInterval ≤ p.maxInterval)
    (hb : 1 ≤ p.backoffMultiplier) :
    ∀ (d n fuel : Nat),
      (∀ j, n ≤ j → j < n + d → ∃ reason, exec (j + 1) = .retryableFailure reason) →
      (∀ j, n ≤ j → j < n + d →
        intervalAt p j ≤ (p.maxDuration : ℚ) - elapsedAt p j) →
      acquireLoop p exec (fuel + d) (elapsedAt p n) (intervalAt p n) (n + 1) =
        acquireLoop p exec fuel (elapsedAt p (n + d)) (intervalAt p (n + d))
          (n + d + 1) := by
  intro d
  induction d with
  | zero => intro n fuel _ _; rfl
  | succ m ih =>
    intro n fuel hretry hfit
    obtain ⟨reason, hexec⟩ := hretry n (le_refl n) (by omega)
    have hfitn := hfit n (le_refl n) (by omega)
    have hipos : (0 : ℚ) < intervalAt p n :=
      lt_of_lt_of_le (by exact_mod_cast hi) (intervalAt_ge_init p hi him hb n)
    have hg : elapsedAt p n < (p.maxDuration : ℚ) := by linarith
    have hnlt : ¬ ((p.maxDuration : ℚ) - elapsedAt p n < intervalAt p n) := by linarith
    have hstep := acquireLoop_step_sleep p exec (fuel + m) (elapsedAt p n)
      (intervalAt p n) (n + 1) reason hg hexec hnlt
    have hre : acquireLoop p exec (fuel + (m + 1)) (elapsedAt p n) (intervalAt p n)
        (n + 1) =
        acquireLoop p exec (fuel + m) (elapsedAt p n + intervalAt p n)
          (min (intervalAt p n * p.backoffMultiplier) ((p.maxInterval : ℤ) : ℚ))
          (n + 1 + 1) := hstep
    rw [hre]
    have e1 : elapsedAt p n + intervalAt p n = elapsedAt p (n + 1) := rfl
    have e2 : min (intervalAt p n * p.backoffMultiplier) ((p.maxInterval : ℤ) : ℚ) =
        intervalAt p (n + 1) := rfl
    rw [e1, e2]
    have hretry' : ∀ j, n + 1 ≤ j → j < n + 1 + m →
        ∃ reason, exec (j + 1) = .retryableFailure reason := by
      intro j h1 h2; exact hretry j (by omega) (by omega)
    have hfit' : ∀ j, n + 1 ≤ j → j < n + 1 + m →
        intervalAt p j ≤ (p.maxDuration : ℚ) - elapsedAt p j := by
      intro j h1 h2; exact hfit j (by omega) (by omega)
    have hrec := ih (n + 1) fuel hretry' hfit'
    have hidx : n + 1 + m = n + (m + 1) := by omega
    rw [hidx] at hrec
    exact hrec

theorem acquireLoop_success_exit (p : RetryPolicy) (exec : Nat → AttemptOutcome) :
    ∀ (fuel : Nat) (e c : ℚ) (a : Nat) (r : RetryResult),
      acquireLoop p exec fuel e c a = some r → r.success = true →
      ∃ cid, exec r.attempts = .success cid ∧
        r.capacityReservationId = some cid ∧ r.error = none := by
  intro fuel
  induction fuel with
  | zero => intro e c a r h _; simp [acquireLoop] at h
  | succ n ih =>
    intro e c a r h hs
    rw [acquireLoop] at h
    by_cases hg : e < (p.maxDuration : ℚ)
    · rw [if_pos hg] at h
      cases hexec : exec a with
      | success cid =>
        rw [hexec] at h; simp at h
        refine ⟨cid, ?_, ?_, ?_⟩
        · rw [← h]; exact hexec
        · rw [← h]
        · rw [← h]
      | fatalFailure reason =>
        rw [hexec] at h; simp at h
        rw [← h] at hs; simp at hs
      | retryableFailure reason =>
        rw [hexec] at h
        by_cases hr : (p.maxDuration : ℚ) - e < c
        · rw [if_pos hr] at h; simp at h
          rw [← h] at hs; simp at hs
        · rw [if_neg hr] at h; exact ih _ _ _ _ h hs
    · rw [if_neg hg] at h; simp at h
      rw [← h] at hs; simp at hs

/-- Claim C1: if the scripted executor fails retryably on the first `m`
attempts and succeeds on attempt `m + 1`, and that attempt is reachable
before the deadline (every earlier wait fits in the remaining budget and the
elapsed time at attempt `m + 1` is still below `maxDuration`), then the call
returns `success = true`, `attempts = m + 1`, the allocation id of the
successful attempt, and `finalInterval` equal to the session's current
interval at that moment; moreover the success branch is the only exit with
`success = true`: any successful result carries the id of a `success`
outcome at its own attempt number and no error. -/
theorem retry_c1 (p : RetryPolicy) (exec : Nat → AttemptOutcome) (m : Nat)
    (cid : String)
    (hi : 0 < p.initialInterval) (him : p.initialInterval ≤ p.maxInterval)
    (hb : 1 ≤ p.backoffMultiplier)
    (hsucc : exec (m + 1) = .success cid)
    (hprev : ∀ j, j < m → ∃ reason, exec (j + 1) = .retryableFailure reason)
    (hfits : ∀ j, j < m → intervalAt p j ≤ (p.maxDuration : ℚ) - elapsedAt p j)
    (hreach : elapsedAt p m < (p.maxDuration : ℚ)) :
    acquire p exec =
      some { success := true, capacityReservationId := some cid, error := none,
             attempts := m + 1, totalDuration := ⌊elapsedAt p m⌋,
             finalInterval := intervalAt p m } ∧
    (∀ (exec2 : Nat → AttemptOutcome) (r : RetryResult),
      acquire p exec2 = some r → r.success = true →
      ∃ cid2, exec2 r.attempts = .success cid2 ∧
        r.capacityReservationId = some cid2 ∧ r.error = none) := by
  constructor
  · have hm : m < p.maxDuration.toNat := by
      have h1 : (m : ℚ) * (p.initialInterval : ℚ) ≤ elapsedAt p m :=
        elapsedAt_ge p hi him hb m
      have h2 : (1 : ℚ) ≤ (p.initialInterval : ℚ) := by exact_mod_cast hi
      have h3 : (m : ℚ) ≤ (m : ℚ) * (p.initialInterval : ℚ) := by
        nlinarith [Nat.cast_nonneg (α := ℚ) m]
      have h4 : (m : ℚ) < (p.maxDuration : ℚ) := by linarith
      have h5 : (m : ℤ) < p.maxDuration := by exact_mod_cast h4
      omega
    have hF : retryFuel p = (retryFuel p - m) + m := by
      unfold retryFuel; omega
    have hrun := acquireLoop_run p exec hi him hb m 0 (retryFuel p - m)
      (fun j _ hj => hprev j (by omega)) (fun j _ hj => hfits j (by omega))
    have hzero : acquire p exec =
        acquireLoop p exec (retryFuel p) (elapsedAt p 0) (intervalAt p 0) (0 + 1) := rfl
    rw [hzero, hF, hrun]
    simp only [Nat.zero_add]
    obtain ⟨s, hs⟩ : ∃ s, retryFuel p - m = s + 1 := by
      refine ⟨retryFuel p - m - 1, ?_⟩
      unfold retryFuel; omega
    rw [hs, acquireLoop]
    rw [if_pos hreach, hsucc]
  · intro exec2 r h hsucc2
    exact acquireLoop_success_exit p exec2 (retryFuel p) 0
      (p.initialInterval : ℚ) 1 r h hsucc2

/-- Witness for C1: the source's simulation scenario — test policy, three
retryable failures, success on attempt 4 — returns `success = true`,
`attempts = 4`, the stubbed reservation id, 210 s elapsed and a final
interval of 240 s. -/
theorem retry_c1_witness :
    acquire testPolicy scriptedExec =
      some { success := true, capacityReservationId := some "cr-test-123456789",
             error := none, attempts := 4, totalDuration := 210,
             finalInterval := 240 } := by
  have i0 : intervalAt testPolicy 0 = 30 := rfl
  have i1 : intervalAt testPolicy 1 = 60 := by
    have h : intervalAt testPolicy 1 =
        min (intervalAt testPolicy 0 * testPolicy.backoffMultiplier)
          ((testPolicy.maxInterval : ℤ) : ℚ) := rfl
    rw [h, i0]; norm_num [testPolicy]
  have i2 : intervalAt testPolicy 2 = 120 := by
    have h : intervalAt testPolicy 2 =
        min (intervalAt testPolicy 1 * testPolicy.backoffMultiplier)
          ((testPolicy.maxInterval : ℤ) : ℚ) := rfl
    rw [h, i1]; norm_num [testPolicy]
  have i3 : intervalAt testPolicy 3 = 240 := by
    have h : intervalAt testPolicy 3 =
        min (intervalAt testPolicy 2 * testPolicy.backoffMultiplier)
          ((testPolicy.maxInterval : ℤ) : ℚ) := rfl
    rw [h, i2]; norm_num [testPolicy]
  have e0 : elapsedAt testPolicy 0 = 0 := rfl
  have e1 : elapsedAt testPolicy 1 = 30 := by
    have h : elapsedAt testPolicy 1 =
        elapsedAt testPolicy 0 + intervalAt testPolicy 0 := rfl
    rw [h, e0, i0]; norm_num
  have e2 : elapsedAt testPolicy 2 = 90 := by
    have h : elapsedAt testPolicy 2 =
        elapsedAt testPolicy 1 + intervalAt testPolicy 1 := rfl
    rw [h, e1, i1]; norm_num
  have e3 : elapsedAt testPolicy 3 = 210 := by
    have h : elapsedAt testPolicy 3 =
        elapsedAt testPolicy 2 + intervalAt testPolicy 2 := rfl
    rw [h, e2, i2]; norm_num
  have hprev : ∀ j, j < 3 →
      ∃ reason, scriptedExec (j + 1) = .retryableFailure reason := by
    intro j hj
    interval_cases j <;> exact ⟨"Simulated capacity not available", rfl⟩
  have hfits : ∀ j, j < 3 →
      intervalAt testPolicy j ≤ (testPolicy.maxDuration : ℚ) - elapsedAt testPolicy j := by
    intro j hj
    interval_cases j
    · rw [i0, e0]; norm_num [testPolicy]
    · rw [i1, e1]; norm_num [testPolicy]
    · rw [i2, e2]; norm_num [testPolicy]
  have hreach : elapsedAt testPolicy 3 < (testPolicy.maxDuration : ℚ) := by
    rw [e3]; norm_num [testPolicy]
  have h := (retry_c1 testPolicy scriptedExec 3 "cr-test-123456789"
    (by norm_num [testPolicy]) (by norm_num [testPolicy]) (by norm_num [testPolicy])
    rfl hprev hfits hreach).1
  rw [e3, i3] at h
  have hfl : ⌊(210 : ℚ)⌋ = 210 := by norm_num
  rw [hfl] at h
  exact h

theorem char_ofNat_toNat_valid {n : Nat} (h : Nat.isValidChar n) :
    (Char.ofNat n).toNat = n := by
  rw [Char.ofNat, dif_pos h]
  rfl

theorem isUpper_iff (c : Char) : c.isUpper = true ↔ 65 ≤ c.toNat ∧ c.toNat ≤ 90 := by
  simp only [Char.isUpper, Bool.and_eq_true, decide_eq_true_eq]
  exact ⟨fun ⟨h1, h2⟩ => ⟨h1, h2⟩, fun ⟨h1, h2⟩ => ⟨h1, h2⟩⟩

theorem toLower_isUpper (c : Char) : (Char.toLower c).isUpper = false := by
  rw [Char.toLower]
  by_cases h : c.toNat ≥ 65 ∧ c.toNat ≤ 90
  · rw [if_pos h]
    obtain ⟨h1, h2⟩ := h
    have hvalid : Nat.isValidChar (c.toNat + 32) := Or.inl (by omega)
    have htn := char_ofNat_toNat_valid hvalid
    rw [← Bool.not_eq_true]
    intro hu
    rw [isUpper_iff, htn] at hu
    omega
  · rw [if_neg h]
    rw [← Bool.not_eq_true]
    intro hu
    rw [isUpper_iff] at hu
    exact h ⟨hu.1, hu.2⟩

theorem digitChar_isUpper (n : Nat) : (Nat.digitChar n).isUpper = false := by
  by_cases hn : n < 16
  · interval_cases n <;> decide
  · push_neg at hn
    rw [Nat.digitChar]
    repeat' rw [if_neg (by omega)]
    decide

theorem toDigitsCore_isUpper (b : Nat) :
    ∀ (fuel n : Nat) (ds : List Char), (∀ c ∈ ds, c.isUpper = false) →
      ∀ c ∈ Nat.toDigitsCore b fuel n ds, c.isUpper = false := by
  intro fuel
  induction fuel with
  | zero => intro n ds hds c hc; exact hds c hc
  | succ m ih =>
    intro n ds hds c hc
    rw [Nat.toDigitsCore] at hc
    by_cases h : n / b = 0
    · rw [if_pos h] at hc
      rcases List.mem_cons.mp hc with h' | h'
      · rw [h']; exact digitChar_isUpper _
      · exact hds c h'
    · rw [if_neg h] at hc
      refine ih (n / b) (Nat.digitChar (n % b) :: ds) ?_ c hc
      intro c' hc'
      rcases List.mem_cons.mp hc' with h' | h'
      · rw [h']; exact digitChar_isUpper _
      · exact hds c' h'

theorem toDigits_isUpper (n : Nat) : ∀ c ∈ Nat.toDigits 10 n, c.isUpper = false := by
  intro c hc
  rw [Nat.toDigits] at hc
  exact toDigitsCore_isUpper 10 (n + 1) n [] (by simp) c hc

theorem pyLower_isUpper (s : List Char) : ∀ c ∈ pyLower s, c.isUpper = false := by
  intro c hc
  rw [pyLower, List.mem_map] at hc
  obtain ⟨c', _, rfl⟩ := hc
  exact toLower_isUpper c'

theorem pyStrip_subset (s : List Char) : pyStrip s ⊆ s := by
  intro c hc
  rw [pyStrip, List.mem_reverse] at hc
  have h1 := (List.dropWhile_sublist _).subset hc
  rw [List.mem_reverse] at h1
  exact (List.dropWhile_sublist _).subset h1

theorem headI_mem' {α : Type} [Inhabited α] (l : List α) (h : l ≠ []) :
    l.headI ∈ l := by
  cases l with
  | nil => exact absurd rfl h
  | cons a t => simp

theorem getLastD_mem' {α : Type} (l : List α) (d : α) (h : l ≠ []) :
    l.getLastD d ∈ l := by
  rw [List.getLastD_eq_getLast?, List.getLast?_eq_getLast l h]
  exact List.getLast_mem h

set_option maxHeartbeats 1000000 in
theorem raw_chars (first last : List Char) (hf : first ≠ []) (hl : last ≠ [])
    (hfc : ∀ c ∈ first, c.isUpper = false) (hlc : ∀ c ∈ last, c.isUpper = false) :
    ∀ s ∈ raw_login_permutations first last, ∀ c ∈ s, c.isUpper = false := by
  have hft : ∀ n, ∀ c ∈ first.take n, c.isUpper = false :=
    fun n c hc => hfc c (List.take_subset n first hc)
  have hlt : ∀ n, ∀ c ∈ last.take n, c.isUpper = false :=
    fun n c hc => hlc c (List.take_subset n last hc)
  have hfh : first.headI.isUpper = false := hfc _ (headI_mem' first hf)
  have hlh : last.headI.isUpper = false := hlc _ (headI_mem' last hl)
  have hfe : (first.getLastD ' ').isUpper = false := hfc _ (getLastD_mem' first ' ' hf)
  have hle : (last.getLastD ' ').isUpper = false := hlc _ (getLastD_mem' last ' ' hl)
  have hdig : ∀ c ∈ Nat.toDigits 10 last.length, c.isUpper = false :=
    toDigits_isUpper last.length
  intro s hs
  simp only [raw_login_permutations, List.mem_cons, List.not_mem_nil, or_false] at hs
  rcases hs with rfl | rfl | rfl | rfl | rfl | rfl | rfl | rfl | rfl | rfl | rfl |
    rfl | rfl | rfl | rfl | rfl | rfl | rfl | rfl | rfl | rfl | rfl
  all_goals
    intro c hc
  all_goals
    simp only [List.mem_append, List.mem_singleton, List.mem_cons,
      List.not_mem_nil, or_false] at hc
  · rcases hc with hc | hc
    · exact hfc c hc
    · exact hlc c hc
  · rcases hc with (hc | hc) | hc
    · exact hfc c hc
    · subst hc; decide
    · exact hlc c hc
  · rcases hc with hc | hc
    · subst hc; exact hfh
    · exact hlc c hc
  · rcases hc with hc | hc
    · exact hfc c hc
    · subst hc; exact hlh
  · rcases hc with hc | hc
    · exact hft _ c hc
    · exact hlt _ c hc
  · rcases hc with hc | hc
    · exact hlc c hc
    · exact hfc c hc
  · rcases hc with (hc | hc) | hc
    · exact hlc c hc
    · subst hc; decide
    · exact hfc c hc
  · rcases hc with hc | hc
    · exact hlc c hc
    · subst hc; exact hfh
  · rcases hc with hc | hc
    · exact hfc c hc
    · exact hdig c hc
  · rcases hc with (hc | hc) | hc
    · subst hc; exact hfh
    · subst hc; decide
    · exact hlc c hc
  · rcases hc with (hc | hc) | hc
    · exact hft _ c hc
    · subst hc; decide
    · exact hlt _ c hc
  · rcases hc with (hc | hc) | hc
    · exact hfc c hc
    · subst hc; decide
    · exact hlc c hc
  · rcases hc with (hc | hc) | hc
    · exact hlc c hc
    · subst hc; decide
    · exact hfc c hc
  · rcases hc with (hc | hc) | hc
    · subst hc; exact hfh
    · subst hc; decide
    · exact hlc c hc
  · rcases hc with hc | hc
    · exact hft _ c hc
    · exact hlt _ c hc
  · rcases hc with hc | hc
    · exact hft _ c hc
    · exact hlt _ c hc
  · rcases hc with hc | hc
    · exact hfc c hc
    · exact hlt _ c hc
  · rcases hc with hc | hc
    · exact hlt _ c hc
    · exact hft _ c hc
  · rcases hc with hc | hc
    · subst hc; exact hfh
    · exact hlt _ c hc
  · rcases hc with hc | hc
    · exact hft _ c hc
    · subst hc; exact hlh
  · rcases hc with rfl | rfl | rfl | rfl
    · exact hfh
    · exact hfe
    · exact hlh
    · exact hle
  · rcases hc with hc | hc
    · exact hft _ c hc
    · exact hlt _ c hc

theorem mem_dedupFirstAux {α : Type} [DecidableEq α] :
    ∀ (l seen : List α) (a : α),
      a ∈ dedupFirstAux seen l ↔ a ∈ l ∧ a ∉ seen := by
  intro l
  induction l with
  | nil => intro seen a; simp [dedupFirstAux]
  | cons b t ih =>
    intro seen a
    by_cases hb : b ∈ seen
    · rw [dedupFirstAux, if_pos hb, ih]
      constructor
      · rintro ⟨h1, h2⟩; exact ⟨List.mem_cons_of_mem b h1, h2⟩
      · rintro ⟨h1, h2⟩
        rcases List.mem_cons.mp h1 with rfl | h1'
        · exact absurd hb h2
        · exact ⟨h1', h2⟩
    · rw [dedupFirstAux, if_neg hb]
      constructor
      · intro h
        rcases List.mem_cons.mp h with rfl | h'
        · exact ⟨List.mem_cons_self a t, hb⟩
        · rw [ih] at h'
          obtain ⟨h1, h2⟩ := h'
          exact ⟨List.mem_cons_of_mem b h1,
            fun hs => h2 (List.mem_cons_of_mem b hs)⟩
      · rintro ⟨h1, h2⟩
        rcases List.mem_cons.mp h1 with rfl | h1'
        · exact List.mem_cons_self a _
        · by_cases hab : a = b
          · subst hab; exact List.mem_cons_self a _
          · apply List.mem_cons_of_mem
            rw [ih]
            refine ⟨h1', fun hs => ?_⟩
            rcases List.mem_cons.mp hs with h | h
            · exact hab h
            · exact h2 h

theorem dedupFirstAux_sublist {α : Type} [DecidableEq α] :
    ∀ (l seen : List α), List.Sublist (dedupFirstAux seen l) l := by
  intro l
  induction l with
  | nil => intro seen; simp [dedupFirstAux]
  | cons b t ih =>
    intro seen
    rw [dedupFirstAux]
    by_cases hb : b ∈ seen
    · rw [if_pos hb]
      exact (ih seen).trans (List.sublist_cons_self b t)
    · rw [if_neg hb]
      exact (ih (b :: seen)).cons₂ b

theorem nodup_dedupFirstAux {α : Type} [DecidableEq α] :
    ∀ (l seen : List α), (dedupFirstAux seen l).Nodup := by
  intro l
  induction l with
  | nil => intro seen; simp [dedupFirstAux]
  | cons b t ih =>
    intro seen
    rw [dedupFirstAux]
    by_cases hb : b ∈ seen
    · rw [if_pos hb]; exact ih seen
    · rw [if_neg hb]
      rw [List.nodup_cons]
      refine ⟨fun hmem => ?_, ih (b :: seen)⟩
      have := (mem_dedupFirstAux t (b :: seen) b).mp hmem
      exact this.2 (List.mem_cons_self b seen)

theorem mem_dedupFirst {α : Type} [DecidableEq α] (l : List α) (a : α) :
    a ∈ dedupFirst l ↔ a ∈ l := by
  rw [dedupFirst, mem_dedupFirstAux]
  simp

theorem nodup_dedupFirst {α : Type} [DecidableEq α] (l : List α) :
    (dedupFirst l).Nodup :=
  nodup_dedupFirstAux l []

theorem dedupFirst_sublist {α : Type} [DecidableEq α] (l : List α) :
    List.Sublist (dedupFirst l) l :=
  dedupFirstAux_sublist l []

/-- Claim C10: `generate_login_permutations` requires both names to be
non-empty after lowercasing and stripping: on such inputs it returns a
duplicate-free list of candidate logins in first-occurrence order (a sublist
of the raw 22-candidate list with the same members) in which no character is
an uppercase letter, whereas if either stripped name is empty it raises
(`IndexError` from indexing the empty string, modelled as `none`) instead of
returning. -/
theorem login_c10 (first_name last_name : List Char) :
    (pyStrip (pyLower first_name) ≠ [] → pyStrip (pyLower last_name) ≠ [] →
      ∃ ps, generate_login_permutations first_name last_name = some ps ∧
        ps.Nodup ∧
        ps.Sublist (raw_login_permutations (pyStrip (pyLower first_name))
          (pyStrip (pyLower last_name))) ∧
        (∀ s, s ∈ ps ↔ s ∈ raw_login_permutations (pyStrip (pyLower first_name))
          (pyStrip (pyLower last_name))) ∧
        (∀ s ∈ ps, ∀ c ∈ s, c.isUpper = false)) ∧
    ((pyStrip (pyLower first_name) = [] ∨ pyStrip (pyLower last_name) = []) →
      generate_login_permutations first_name last_name = none) := by
  constructor
  · intro hf hl
    have hcond : ¬ (pyStrip (pyLower first_name) = [] ∨
        pyStrip (pyLower last_name) = []) := by tauto
    refine ⟨dedupFirst (raw_login_permutations (pyStrip (pyLower first_name))
      (pyStrip (pyLower last_name))), ?_, nodup_dedupFirst _, dedupFirst_sublist _,
      fun s => mem_dedupFirst _ s, ?_⟩
    · simp only [generate_login_permutations]
      rw [if_neg hcond]
    · intro s hs
      have hs' := (mem_dedupFirst _ s).mp hs
      have hfc : ∀ c ∈ pyStrip (pyLower first_name), c.isUpper = false :=
        fun c hc => pyLower_isUpper first_name c (pyStrip_subset _ hc)
      have hlc : ∀ c ∈ pyStrip (pyLower last_name), c.isUpper = false :=
        fun c hc => pyLower_isUpper last_name c (pyStrip_subset _ hc)
      exact raw_chars _ _ hf hl hfc hlc s hs'
  · intro h
    simp only [generate_login_permutations]
    rw [if_pos h]

/-- Witness for C10: the names `"Jo"`/`" Sm"` generate a concrete
duplicate-free lowercase candidate list, while an all-whitespace last name
makes generation raise (return `none`). -/
theorem login_c10_witness :
    (∃ ps, generate_login_permutations ['J', 'o'] [' ', 'S', 'm'] = some ps ∧
      ps.Nodup ∧
      ps.Sublist (raw_login_permutations (pyStrip (pyLower ['J', 'o']))
        (pyStrip (pyLower [' ', 'S', 'm']))) ∧
      (∀ s, s ∈ ps ↔ s ∈ raw_login_permutations (pyStrip (pyLower ['J', 'o']))
        (pyStrip (pyLower [' ', 'S', 'm']))) ∧
      (∀ s ∈ ps, ∀ c ∈ s, c.isUpper = false)) ∧
    generate_login_permutations ['J', 'o'] [' '] = none := by
  constructor
  · exact (login_c10 ['J', 'o'] [' ', 'S', 'm']).1 (by decide) (by decide)
  · exact (login_c10 ['J', 'o'] [' ']).2 (by decide)

theorem dictLookup_dictInsert {K V : Type} [DecidableEq K] :
    ∀ (m : List (K × V)) (k k' : K) (v : V),
      dictLookup (dictInsert m k v) k' = if k = k' then some v else dictLookup m k' := by
  intro m
  induction m with
  | nil => intro k k' v; simp [dictInsert, dictLookup]
  | cons p rest ih =>
    intro k k' v
    obtain ⟨k0, v0⟩ := p
    rw [dictInsert]
    by_cases h0 : k0 = k
    · rw [if_pos h0]
      subst h0
      rw [dictLookup]
      by_cases h1 : k0 = k'
      · rw [if_pos h1, if_pos h1]
      · rw [if_neg h1, if_neg h1, dictLookup, if_neg h1]
    · rw [if_neg h0, dictLookup, dictLookup]
      by_cases h1 : k0 = k'
      · rw [if_pos h1, if_pos h1]
        have hkk' : ¬ (k = k') := fun hk => h0 (h1.trans hk.symm)
        rw [if_neg hkk']
      · rw [if_neg h1, if_neg h1, ih]

theorem dictLookup_eq_some_of_mem {K V : Type} [DecidableEq K] :
    ∀ (l : List (K × V)) (k : K) (v : V),
      (k, v) ∈ l → (l.map Prod.fst).Nodup → dictLookup l k = some v := by
  intro l
  induction l with
  | nil => intro k v hmem _; exact absurd hmem (List.not_mem_nil _)
  | cons p rest ih =>
    intro k v hmem hnd
    obtain ⟨k0, v0⟩ := p
    rw [List.map_cons, List.nodup_cons] at hnd
    obtain ⟨hk0, hnd'⟩ := hnd
    rcases List.mem_cons.mp hmem with heq | hmem'
    · cases heq
      rw [dictLookup, if_pos rfl]
    · rw [dictLookup]
      by_cases h : k0 = k
      · subst h
        exact absurd (List.mem_map.mpr ⟨(k0, v), hmem', rfl⟩) hk0
      · rw [if_neg h]
        exact ih k v hmem' hnd'

theorem mem_foundOf {D : Type} (existing : List (List Char × D))
    (q : List Char × List Char) (login : List Char) :
    login ∈ foundOf existing q ↔
      isPermName q login ∧ login ∈ existing.map Prod.fst := by
  rw [foundOf, List.mem_filter]
  simp only [decide_eq_true_eq]
  constructor
  · rintro ⟨hmem, hex⟩
    refine ⟨?_, hex⟩
    rw [permsOf] at hmem
    cases hg : generate_login_permutations q.1 q.2 with
    | none => rw [hg] at hmem; simp at hmem
    | some ps => rw [hg] at hmem; exact ⟨ps, hg, by simpa using hmem⟩
  · rintro ⟨⟨ps, hps, hmem⟩, hex⟩
    refine ⟨?_, hex⟩
    rw [permsOf, hps]
    simpa using hmem

theorem find_matching_aux_spec {D : Type} (existing : List (List Char × D)) :
    ∀ (names : List (List Char × List Char))
      (macc : List ((List Char × List Char) × List D)) (matched : List (List Char)),
      (∀ q ∈ names, generate_login_permutations q.1 q.2 ≠ none) →
      ∃ macc' matched',
        find_matching_aux existing names macc matched = some (macc', matched') ∧
        (∀ login, login ∈ matched' ↔
          (login ∈ matched ∨ ∃ q ∈ names, login ∈ foundOf existing q)) ∧
        (∀ q, (q ∈ names ∧ foundOf existing q ≠ [] →
            dictLookup macc' q = some (valOf existing q)) ∧
          (¬ (q ∈ names ∧ foundOf existing q ≠ []) →
            dictLookup macc' q = dictLookup macc q)) := by
  intro names
  induction names with
  | nil =>
    intro macc matched _
    refine ⟨macc, matched, rfl, fun login => by simp, fun q => ⟨?_, fun _ => rfl⟩⟩
    rintro ⟨h, _⟩
    exact absurd h (List.not_mem_nil q)
  | cons q0 rest ih =>
    intro macc matched hgen
    obtain ⟨f0, l0⟩ := q0
    obtain ⟨ps, hps⟩ : ∃ ps, generate_login_permutations f0 l0 = some ps := by
      cases hg : generate_login_permutations f0 l0 with
      | none => exact absurd hg (hgen (f0, l0) (List.mem_cons_self _ _))
      | some ps => exact ⟨ps, rfl⟩
    have hfound : ps.filter (fun login => decide (login ∈ existing.map Prod.fst)) =
        foundOf existing (f0, l0) := by
      simp only [foundOf, permsOf, hps, Option.getD_some]
    have hval : (foundOf existing (f0, l0)).filterMap (dictLookup existing) =
        valOf existing (f0, l0) := rfl
    have hstep : find_matching_aux existing ((f0, l0) :: rest) macc matched =
        (if foundOf existing (f0, l0) = []
         then find_matching_aux existing rest macc matched
         else find_matching_aux existing rest
           (dictInsert macc (f0, l0) (valOf existing (f0, l0)))
           (matched ++ foundOf existing (f0, l0))) := by
      rw [find_matching_aux, hps]
      simp only [hfound, hval]
    by_cases hemp : foundOf existing (f0, l0) = []
    · rw [if_pos hemp] at hstep
      obtain ⟨m', d', heq, hmat, hlook⟩ :=
        ih macc matched (fun q hq => hgen q (List.mem_cons_of_mem _ hq))
      refine ⟨m', d', hstep.trans heq, ?_, ?_⟩
      · intro login
        rw [hmat login]
        constructor
        · rintro (h | ⟨q, hq, hf⟩)
          · exact Or.inl h
          · exact Or.inr ⟨q, List.mem_cons_of_mem _ hq, hf⟩
        · rintro (h | ⟨q, hq, hf⟩)
          · exact Or.inl h
          · rcases List.mem_cons.mp hq with rfl | hq'
            · rw [hemp] at hf; exact absurd hf (List.not_mem_nil login)
            · exact Or.inr ⟨q, hq', hf⟩
      · intro q
        obtain ⟨hl1, hl2⟩ := hlook q
        constructor
        · rintro ⟨hq, hne⟩
          rcases List.mem_cons.mp hq with rfl | hq'
          · exact absurd hemp hne
          · exact hl1 ⟨hq', hne⟩
        · intro hn
          apply hl2
          rintro ⟨hq', hne⟩
          exact hn ⟨List.mem_cons_of_mem _ hq', hne⟩
    · rw [if_neg hemp] at hstep
      obtain ⟨m', d', heq, hmat, hlook⟩ :=
        ih (dictInsert macc (f0, l0) (valOf existing (f0, l0)))
          (matched ++ foundOf existing (f0, l0))
          (fun q hq => hgen q (List.mem_cons_of_mem _ hq))
      refine ⟨m', d', hstep.trans heq, ?_, ?_⟩
      · intro login
        rw [hmat login, List.mem_append]
        constructor
        · rintro ((h | h) | ⟨q, hq, hf⟩)
          · exact Or.inl h
          · exact Or.inr ⟨(f0, l0), List.mem_cons_self _ _, h⟩
          · exact Or.inr ⟨q, List.mem_cons_of_mem _ hq, hf⟩
        · rintro (h | ⟨q, hq, hf⟩)
          · exact Or.inl (Or.inl h)
          · rcases List.mem_cons.mp hq with rfl | hq'
            · exact Or.inl (Or.inr hf)
            · exact Or.inr ⟨q, hq', hf⟩
      · intro q
        obtain ⟨hl1, hl2⟩ := hlook q
        constructor
        · rintro ⟨hq, hne⟩
          rcases List.mem_cons.mp hq with rfl | hq'
          · by_cases hrest : (f0, l0) ∈ rest ∧ foundOf existing (f0, l0) ≠ []
            · exact hl1 hrest
            · rw [hl2 hrest, dictLookup_dictInsert, if_pos rfl]
          · exact hl1 ⟨hq', hne⟩
        · intro hn
          have hq0 : ¬ (q ∈ rest ∧ foundOf existing q ≠ []) :=
            fun hqr => hn ⟨List.mem_cons_of_mem _ hqr.1, hqr.2⟩
          rw [hl2 hq0, dictLookup_dictInsert]
          have hne0 : (f0, l0) ≠ q := by
            rintro rfl
            exact hn ⟨List.mem_cons_self _ _, hemp⟩
          rw [if_neg hne0]

/-- Claim C9 (amended): for every names list in which both components of
every name are non-empty after lowercasing and stripping (otherwise
candidate generation raises, see C10) and every login dictionary,
`find_matching_logins` partitions the existing logins: a login is a key of
`non_matches` iff it is not a generated permutation of any name in the list,
each existing login that is a permutation of a name has its (unchanged) data
in that name's `matches` entry, and `non_matches` carries the original data
of exactly the unmatched logins — the input dictionary itself is only read,
never written (the embedding is a pure function of it). -/
theorem login_c9 {D : Type} (names_list : List (List Char × List Char))
    (existing_logins : List (List Char × D))
    (hnames : ∀ q ∈ names_list,
      pyStrip (pyLower q.1) ≠ [] ∧ pyStrip (pyLower q.2) ≠ [])
    (hkeys : (existing_logins.map Prod.fst).Nodup) :
    ∃ matchesAcc non_matches,
      find_matching_logins names_list existing_logins =
        some (matchesAcc, non_matches) ∧
      (∀ login, login ∈ non_matches.map Prod.fst ↔
        (login ∈ existing_logins.map Prod.fst ∧
          ¬ ∃ q ∈ names_list, isPermName q login)) ∧
      (∀ login d, (login, d) ∈ non_matches ↔
        ((login, d) ∈ existing_logins ∧ ¬ ∃ q ∈ names_list, isPermName q login)) ∧
      (∀ q ∈ names_list, ∀ login d, (login, d) ∈ existing_logins →
        isPermName q login →
        ∃ ds, dictLookup matchesAcc q = some ds ∧ d ∈ ds) := by
  have hgen : ∀ q ∈ names_list, generate_login_permutations q.1 q.2 ≠ none := by
    intro q hq
    obtain ⟨h1, h2⟩ := hnames q hq
    simp only [generate_login_permutations]
    rw [if_neg (by tauto)]
    simp
  obtain ⟨m', d', heq, hmat, hlook⟩ :=
    find_matching_aux_spec existing_logins names_list [] [] hgen
  have hmat' : ∀ login, login ∈ d' ↔ ∃ q ∈ names_list, login ∈ foundOf existing_logins q := by
    intro login
    rw [hmat login]
    simp
  have hpair : ∀ login d, (login, d) ∈ existing_logins.filter
      (fun q => decide (q.1 ∉ d')) ↔
      ((login, d) ∈ existing_logins ∧ ¬ ∃ q ∈ names_list, isPermName q login) := by
    intro login d
    rw [List.mem_filter]
    simp only [decide_eq_true_eq]
    constructor
    · rintro ⟨hmem, hnot⟩
      refine ⟨hmem, fun ⟨q, hq, hperm⟩ => hnot ?_⟩
      rw [hmat' login]
      refine ⟨q, hq, (mem_foundOf existing_logins q login).mpr ⟨hperm, ?_⟩⟩
      exact List.mem_map.mpr ⟨(login, d), hmem, rfl⟩
    · rintro ⟨hmem, hnot⟩
      refine ⟨hmem, fun hd => hnot ?_⟩
      rw [hmat' login] at hd
      obtain ⟨q, hq, hf⟩ := hd
      obtain ⟨hperm, _⟩ := (mem_foundOf existing_logins q login).mp hf
      exact ⟨q, hq, hperm⟩
  refine ⟨m', existing_logins.filter (fun q => decide (q.1 ∉ d')), ?_, ?_, ?_, ?_⟩
  · rw [find_matching_logins, heq]
  · intro login
    constructor
    · intro h
      obtain ⟨⟨login', d⟩, hmem, hfst⟩ := List.mem_map.mp h
      cases hfst
      obtain ⟨hmem', hnot⟩ := (hpair _ d).mp hmem
      exact ⟨List.mem_map.mpr ⟨(_, d), hmem', rfl⟩, hnot⟩
    · rintro ⟨hkey, hnot⟩
      obtain ⟨⟨login', d⟩, hmem, hfst⟩ := List.mem_map.mp hkey
      cases hfst
      exact List.mem_map.mpr ⟨(_, d), (hpair _ d).mpr ⟨hmem, hnot⟩, rfl⟩
  · exact hpair
  · intro q hq login d hmem hperm
    have hkey : login ∈ existing_logins.map Prod.fst :=
      List.mem_map.mpr ⟨(login, d), hmem, rfl⟩
    have hf : login ∈ foundOf existing_logins q :=
      (mem_foundOf existing_logins q login).mpr ⟨hperm, hkey⟩
    have hne : foundOf existing_logins q ≠ [] := List.ne_nil_of_mem hf
    refine ⟨valOf existing_logins q, (hlook q).1 ⟨hq, hne⟩, ?_⟩
    rw [valOf]
    exact List.mem_filterMap.mpr
      ⟨login, hf, dictLookup_eq_some_of_mem existing_logins login d hmem hkeys⟩

/-- Counterexample to C9 as stated: with a name whose first component strips
to the empty string, `find_matching_logins` raises (`IndexError` inside
`generate_login_permutations`, modelled as `none`) instead of returning a
partition — so the property does not hold for *every* names list. -/
theorem login_c9_counterexample :
    find_matching_logins (D := Nat) [(([] : List Char), ['x'])] [] = none := by
  rfl

/-- Witness for C9 (amended): the name `("Jo", "Sm")` matches the existing
login `"josm"` (candidate `first[:2] + last[:2]`), `"zz"` stays unmatched,
and the partition comes out as proved. -/
theorem login_c9_witness :
    ∃ matchesAcc non_matches,
      find_matching_logins [((['J', 'o'] : List Char), (['S', 'm'] : List Char))]
        [((['j', 'o', 's', 'm'] : List Char), (0 : Nat)), (['z', 'z'], 1)] =
        some (matchesAcc, non_matches) ∧
      (∀ login, login ∈ non_matches.map Prod.fst ↔
        (login ∈ ([((['j', 'o', 's', 'm'] : List Char), (0 : Nat)),
            (['z', 'z'], 1)].map Prod.fst) ∧
          ¬ ∃ q ∈ [((['J', 'o'] : List Char), (['S', 'm'] : List Char))],
            isPermName q login)) ∧
      (∀ login d, (login, d) ∈ non_matches ↔
        ((login, d) ∈ [((['j', 'o', 's', 'm'] : List Char), (0 : Nat)),
            (['z', 'z'], 1)] ∧
          ¬ ∃ q ∈ [((['J', 'o'] : List Char), (['S', 'm'] : List Char))],
            isPermName q login)) ∧
      (∀ q ∈ [((['J', 'o'] : List Char), (['S', 'm'] : List Char))],
        ∀ login d, (login, d) ∈ [((['j', 'o', 's', 'm'] : List Char), (0 : Nat)),
            (['z', 'z'], 1)] →
        isPermName q login →
        ∃ ds, dictLookup matchesAcc q = some ds ∧ d ∈ ds) :=
  login_c9 _ _ (by decide) (by decide)
